import Mathlib

/-!
Verification of the procurement-tracker workflow core (`src/app.js`).

This file shallowly embeds the data model (Project / Step / ChecklistItem /
notes), the workflow state machine (`toggleStepCompletion` with its
`_saveAndRefreshStep` recomputation, progress percentage), the checklist and
note mutation handlers, the lazy note migration in `loadWorkflowStep`, the
settings/template propagation (global and project-specific save in
`initSettings`), and the store adapter (`FirestoreManager.getWorkspaceData`,
`FirestoreManager.saveWorkspace`, `App.handleMigration`).

JavaScript conventions used throughout the embedding:
  * `undefined`/`null` fields are `Option` with `none`;
  * a JS string is falsy iff it is empty, so `!s` on a nullable string is
    modelled by `isFalsyStr : Option String → Bool`;
  * `Date.now()` / `new Date(...).toISOString()` values are passed in as
    explicit `String` parameters (`now`, `dateISO`, ...);
  * `Math.round` on a non-negative rational is `⌊q + 1/2⌋`;
  * `Array.prototype.findIndex` returning `-1` is modelled by an
    `Option Nat` valued `findIndexOpt`, matched like the `!== -1` test.
-/

namespace ProTracker

/-- JS truthiness test for a nullable string: `!x` is `true` exactly when the
field is absent (`undefined`/`null`) or the empty string. -/
def isFalsyStr : Option String → Bool
  | none => true
  | some s => s == ""

/-- A timeline / postit / legacy note: the JS object
`{ timestamp, text, type? }` (the `type` tag is absent on notes pushed by
`addTimelineEntry`, `addPostit` and the per-item note box). -/
structure Note where
  timestamp : String
  text : String
  type : Option String := none
deriving DecidableEq, Repr

/-- The legacy `step.notes` field: a plain string, an array of notes, or
absent (`undefined`). -/
inductive NotesField where
  | undef : NotesField
  | str : String → NotesField
  | arr : List Note → NotesField
deriving DecidableEq, Repr

/-- A sub-note attached to a single checklist item (`item.notes` entries,
`{ text, timestamp }`). -/
structure ItemNote where
  text : String
  timestamp : String
deriving DecidableEq, Repr

/-- A checklist item.  `createdAt`, `completedAt`, `deadline` and `notes` are
absent (`none` / `[]`) on items rebuilt by the template propagation, which
emits bare `{ text, checked }` objects. -/
structure ChecklistItem where
  text : String
  checked : Bool
  createdAt : Option String := none
  completedAt : Option String := none
  deadline : Option String := none
  notes : List ItemNote := []
deriving DecidableEq, Repr

instance : Inhabited ChecklistItem := ⟨{ text := "", checked := false }⟩

/-- A workflow step of a project. -/
structure Step where
  id : Nat
  title : String
  completed : Bool
  completedAt : Option String
  documentNumber : Option String := none
  notes : NotesField := NotesField.arr []
  timeline : Option (List Note) := none
  postits : Option (List Note) := none
  checklist : List ChecklistItem := []
deriving DecidableEq, Repr

instance : Inhabited Step :=
  ⟨{ id := 0, title := "", completed := false, completedAt := none }⟩

/-- An entry of the step template (`STEPS_TEMPLATE` / `customSteps` /
`tempStepsTemplate`): `{ id, title, defaultChecklist }`.  `id = 0` models a
falsy JS id, for the `t.id || index + 1` fallbacks. -/
structure TemplateEntry where
  id : Nat
  title : String
  defaultChecklist : List String := []
deriving DecidableEq, Repr

instance : Inhabited TemplateEntry := ⟨{ id := 0, title := "" }⟩

/-- A project.  `currentStepIndex` is an `Int` because the JS code can compute
`steps.length - 1 = -1` on an empty step list. -/
structure Project where
  id : String := ""
  name : String := ""
  description : String := ""
  budget : ℚ := 0
  contractAmount : ℚ := 0
  deadline : Option String := none
  priority : String := "normal"
  purchaseType : String := "buy"
  procurementMethod : String := "e-bidding"
  createdAt : String := ""
  updatedAt : String := ""
  status : String
  currentStepIndex : Int
  steps : List Step
deriving DecidableEq, Repr

/-- The seven-step default template `STEPS_TEMPLATE` (titles abbreviated to
their step ids; only ids, arity and the empty default checklists matter to
the claims). -/
def STEPS_TEMPLATE : List TemplateEntry :=
  [⟨1, "need-survey", []⟩, ⟨2, "tor", []⟩, ⟨3, "price-estimate", []⟩,
   ⟨4, "approval", []⟩, ⟨5, "procurement", []⟩, ⟨6, "inspection", []⟩,
   ⟨7, "disbursement", []⟩]

/-- Step construction inside the `Project` constructor:
`template.map((t, index) => ({ id: t.id || index + 1, title: t.title,
completed: false, completedAt: null, notes: [], checklist:
(t.defaultChecklist || []).map(text => ({ text, checked: false,
completedAt: null })) }))`. -/
def initSteps : List TemplateEntry → Nat → List Step
  | [], _ => []
  | t :: rest, idx =>
      { id := if t.id = 0 then idx + 1 else t.id,
        title := t.title,
        completed := false,
        completedAt := none,
        notes := NotesField.arr [],
        checklist := t.defaultChecklist.map fun text =>
          { text := text, checked := false, completedAt := none } }
        :: initSteps rest (idx + 1)

/-- The `Project` constructor (`new Project(name, description, budget,
deadline, priority, purchaseType, template, method, contractAmount)`).
`id`/`createdAt` are the wall-clock values, passed in explicitly. -/
def mkProject (name description : String) (budget : ℚ)
    (deadline : Option String) (priority purchaseType : String)
    (template : List TemplateEntry) (method : String) (contractAmount : ℚ)
    (idNow createdNow : String) : Project :=
  { id := idNow,
    name := name,
    description := description,
    budget := budget,
    contractAmount := contractAmount,
    deadline := deadline,
    priority := priority,
    purchaseType := purchaseType,
    procurementMethod := method,
    createdAt := createdNow,
    updatedAt := createdNow,
    status := "active",
    currentStepIndex := 0,
    steps := initSteps template 0 }

/-- `Array.prototype.findIndex`, with `none` for the JS `-1` result. -/
def findIndexOpt (p : α → Bool) : List α → Option Nat
  | [] => none
  | x :: xs => if p x then some 0 else (findIndexOpt p xs).map (· + 1)

/-- In-place element update `l[i] = f(l[i])`; out-of-range indices leave the
list unchanged (JS writes past the end never happen in the embedded code:
every call site indexes an existing element). -/
def updateAt (i : Nat) (f : α → α) : List α → List α
  | [] => []
  | x :: xs =>
      match i with
      | 0 => f x :: xs
      | n + 1 => x :: updateAt n f xs

/-- `App._saveAndRefreshStep`, pointer/status recomputation part:
`const firstIncompleteIdx = steps.findIndex(s => !s.completed);
if (firstIncompleteIdx !== -1) { currentStepIndex = firstIncompleteIdx;
status = 'active' } else { currentStepIndex = steps.length - 1;
status = 'completed' }`. -/
def saveAndRefresh (p : Project) : Project :=
  match findIndexOpt (fun s => !s.completed) p.steps with
  | some i => { p with currentStepIndex := (i : Int), status := "active" }
  | none =>
      { p with currentStepIndex := (p.steps.length : Int) - 1,
               status := "completed" }

/-- Step mutation of the completing branch of `App.toggleStepCompletion`:
`step.completed = true; step.documentNumber = inpDocNumber.value.trim() ||
null; step.completedAt = selectedDate ? ... : ...`. -/
def completeStepUpdater (documentNumber : Option String) (dateISO : String)
    (s : Step) : Step :=
  { s with completed := true,
           documentNumber := documentNumber,
           completedAt := some dateISO }

/-- The completing branch of `App.toggleStepCompletion`: sets
`completed = true`, stores the (trimmed-or-null) document number and the
chosen completion date, then runs `_saveAndRefreshStep`. -/
def completeStep (p : Project) (stepIndex : Nat)
    (documentNumber : Option String) (dateISO : String) : Project :=
  let f := completeStepUpdater documentNumber dateISO
  saveAndRefresh { p with steps := updateAt stepIndex f p.steps }

/-- Step mutation of the reverting branch of `App.toggleStepCompletion`:
`step.completed = false; step.completedAt = null;
step.documentNumber = null`. -/
def revertStepUpdater (s : Step) : Step :=
  { s with completed := false,
           completedAt := none,
           documentNumber := none }

/-- The reverting branch of `App.toggleStepCompletion`: sets
`completed = false, completedAt = null, documentNumber = null`, then runs
`_saveAndRefreshStep`. -/
def revertStep (p : Project) (stepIndex : Nat) : Project :=
  saveAndRefresh { p with steps := updateAt stepIndex revertStepUpdater p.steps }

/-- `completedStepsCount = p.steps.filter(s => s.completed).length`. -/
def completedStepCount (p : Project) : Nat :=
  (p.steps.filter fun s => s.completed).length

/-- `totalSteps = p.steps.length`. -/
def totalStepCount (p : Project) : Nat := p.steps.length

/-- JS `Math.round` on a (non-negative) rational: `⌊q + 1/2⌋`. -/
def mathRound (q : ℚ) : ℤ := ⌊q + 1 / 2⌋

/-- The progress value `Math.round((completedCount / totalSteps) * 100)`
as computed when `totalSteps > 0`. -/
def progressVal (p : Project) : ℤ :=
  mathRound ((completedStepCount p : ℚ) / (totalStepCount p : ℚ) * 100)

/-- `progressPercent`: `Math.round((completedCount / totalSteps) * 100)`.
For a project with no steps the JS expression is `0/0 * 100 = NaN`,
modelled as `none`. -/
def progressPercent (p : Project) : Option ℤ :=
  if p.steps.length = 0 then none else some (progressVal p)

/-!  Lazy note migration (`App.loadWorkflowStep`, the "Migrate old logic"
block): a string `notes` field is wrapped into a single typed timeline entry
(an empty string yields an empty array), then missing `timeline` / `postits`
arrays are derived from `notes` by `type` filtering. -/

/-- The migration block of `App.loadWorkflowStep`:
```
if (typeof stepData.notes === 'string') {
  const oldText = stepData.notes;
  stepData.notes = oldText
    ? [{ timestamp: new Date().toISOString(), text: oldText, type: 'timeline' }]
    : [];
}
if (!stepData.timeline) {
  stepData.timeline = (stepData.notes || []).filter(n => !n.type || n.type === 'timeline');
}
if (!stepData.postits) {
  stepData.postits = (stepData.notes || []).filter(n => n.type === 'postit');
}
```
`now` is the `new Date().toISOString()` value. -/
def migrateStepNotes (now : String) (s : Step) : Step :=
  let s1 :=
    match s.notes with
    | NotesField.str txt =>
        let wrapped : List Note :=
          if txt = "" then []
          else [{ timestamp := now, text := txt, type := some "timeline" }]
        { s with notes := NotesField.arr wrapped }
    | _ => s
  let notesArr :=
    match s1.notes with
    | NotesField.arr l => l
    | _ => []
  let s2 :=
    match s1.timeline with
    | none =>
        { s1 with timeline := some (notesArr.filter fun n =>
            isFalsyStr n.type || n.type == some "timeline") }
    | some _ => s1
  match s2.postits with
  | none =>
      { s2 with postits := some (notesArr.filter fun n =>
          n.type == some "postit") }
  | some _ => s2

/-!  Checklist item handlers (`App.renderChecklistItem`). -/

/-- The checkbox `change` handler:
```
item.checked = checkbox.checked;
if (item.checked && !item.completedAt) { item.completedAt = now; }
else if (!item.checked) { item.completedAt = null; }
```
-/
def checkboxChange (newChecked : Bool) (now : String)
    (item : ChecklistItem) : ChecklistItem :=
  let item1 := { item with checked := newChecked }
  if item1.checked && isFalsyStr item1.completedAt then
    { item1 with completedAt := some now }
  else if !item1.checked then
    { item1 with completedAt := none }
  else item1

/-- The manual date editor `saveDate`:
```
if (inp.value) { item.completedAt = new Date(inp.value).toISOString(); }
else { item.completedAt = null; }
```
`toIso` is the external `new Date(..).toISOString()` conversion. -/
def saveDate (toIso : String → String) (inpValue : String)
    (item : ChecklistItem) : ChecklistItem :=
  if inpValue ≠ "" then { item with completedAt := some (toIso inpValue) }
  else { item with completedAt := none }

/-- Step-level view of a checklist-item mutation. -/
def checklistStepUpdater (itemIndex : Nat)
    (f : ChecklistItem → ChecklistItem) (s : Step) : Step :=
  { s with checklist := updateAt itemIndex f s.checklist }

/-- Project-level wrapper: mutate checklist item `itemIndex` of step
`stepIndex` (the handlers mutate the item inside the in-memory active
project, which is then persisted whole). -/
def updateChecklistItem (p : Project) (stepIndex itemIndex : Nat)
    (f : ChecklistItem → ChecklistItem) : Project :=
  let g := checklistStepUpdater itemIndex f
  { p with steps := updateAt stepIndex g p.steps }

/-- Step-level view of `App.addChecklistItem`. -/
def addChecklistItemUpdater (text : String) (deadline : Option String)
    (now : String) (s : Step) : Step :=
  let newItem : ChecklistItem :=
    { text := text, checked := false, createdAt := some now,
      completedAt := none, deadline := deadline }
  { s with checklist := s.checklist ++ [newItem] }

/-- `App.addChecklistItem`: pushes
`{ text, checked: false, createdAt: now, completedAt: null,
deadline: deadline || null }` onto the current step's checklist. -/
def addChecklistItem (p : Project) (stepIndex : Nat) (text : String)
    (deadline : Option String) (now : String) : Project :=
  let g := addChecklistItemUpdater text deadline now
  { p with steps := updateAt stepIndex g p.steps }

/-- Step-level view of the checklist delete button. -/
def deleteChecklistItemUpdater (itemIndex : Nat) (s : Step) : Step :=
  { s with checklist := s.checklist.eraseIdx itemIndex }

/-- The checklist delete button: `checklist.splice(index, 1)`. -/
def deleteChecklistItem (p : Project) (stepIndex itemIndex : Nat) : Project :=
  let g := deleteChecklistItemUpdater itemIndex
  { p with steps := updateAt stepIndex g p.steps }

/-!  Timeline / postit CRUD (`App.addTimelineEntry`, `App.addPostit`, and the
delete handlers in `App.renderTimeline` / `App.renderPostits`). -/

/-- Step-level view of `App.addTimelineEntry`. -/
def addTimelineUpdater (text now : String) (s : Step) : Step :=
  let tl := (s.timeline.getD []) ++ [{ timestamp := now, text := text }]
  { s with timeline := some tl }

/-- `App.addTimelineEntry`: `if (!currentStep.timeline) currentStep.timeline
= []; currentStep.timeline.push({ text, timestamp: now })`. -/
def addTimelineEntry (p : Project) (stepIndex : Nat) (text now : String) :
    Project :=
  { p with steps := updateAt stepIndex (addTimelineUpdater text now) p.steps }

/-- Step-level view of `App.addPostit`. -/
def addPostitUpdater (text now : String) (s : Step) : Step :=
  let ps := (s.postits.getD []) ++ [{ timestamp := now, text := text }]
  { s with postits := some ps }

/-- `App.addPostit`: `if (!currentStep.postits) currentStep.postits = [];
currentStep.postits.push({ text, timestamp: now })`. -/
def addPostit (p : Project) (stepIndex : Nat) (text now : String) : Project :=
  { p with steps := updateAt stepIndex (addPostitUpdater text now) p.steps }

/-- Step-level view of the timeline delete handler. -/
def deleteTimelineUpdater (ts : String) (s : Step) : Step :=
  let tl := (s.timeline.getD []).filter fun n => n.timestamp ≠ ts
  { s with timeline := some tl }

/-- Timeline deletion (in `App.renderTimeline`): `stepData.timeline =
stepData.timeline.filter(n => n.timestamp !== note.timestamp)`. -/
def deleteTimelineEntry (p : Project) (stepIndex : Nat) (ts : String) :
    Project :=
  { p with steps := updateAt stepIndex (deleteTimelineUpdater ts) p.steps }

/-- Step-level view of the postit delete handler. -/
def deletePostitUpdater (itemIndex : Nat) (s : Step) : Step :=
  { s with postits := some ((s.postits.getD []).eraseIdx itemIndex) }

/-- Postit deletion (in `App.renderPostits`):
`stepData.postits.splice(idx, 1)`. -/
def deletePostit (p : Project) (stepIndex itemIndex : Nat) : Project :=
  let g := deletePostitUpdater itemIndex
  { p with steps := updateAt stepIndex g p.steps }

/-!  Template propagation (`App.initSettings`, save button). -/

/-- Checklist rebuild used by the global save:
`newChecklistTexts.map(text => { const match = existingItems.find(item =>
item.text === text); return { text, checked: match ? match.checked : false };
})`. -/
def rebuildChecklist (newTexts : List String) (old : List ChecklistItem) :
    List ChecklistItem :=
  newTexts.map fun text =>
    match old.find? (fun item => item.text == text) with
    | some m => { text := text, checked := m.checked }
    | none => { text := text, checked := false }

/-- Step-level view of the global save: `s.title = templateStep.title;
s.checklist = ...rebuild...`. -/
def globalStepUpdater (s : Step) (t : TemplateEntry) : Step :=
  { s with title := t.title,
           checklist := rebuildChecklist t.defaultChecklist s.checklist }

/-- The global save applied to one project: projects whose step count equals
the template length get each step's `title` overwritten positionally and the
checklist rebuilt; all other projects are untouched
(`if (p.steps && p.steps.length === stepsTemplate.length) { ... }`). -/
def applyGlobalTemplate (tmpl : List TemplateEntry) (p : Project) : Project :=
  if p.steps.length = tmpl.length then
    { p with steps := List.zipWith globalStepUpdater p.steps tmpl }
  else p

/-- The global save over the whole workspace: `projects.forEach(p => ...)`. -/
def applyGlobalTemplateAll (tmpl : List TemplateEntry)
    (projects : List Project) : List Project :=
  projects.map (applyGlobalTemplate tmpl)

/-- Step rebuild of the project-specific save:
```
steps = tempStepsTemplate.map((t, idx) => {
  const existing = steps.find(s => s.id === t.id) || steps[idx];
  return { id: t.id || idx + 1, title: t.title,
           completed: existing ? existing.completed : false,
           completedAt: existing ? existing.completedAt : null,
           notes: existing ? existing.notes : "",
           checklist: t.defaultChecklist.map(text => {
             const match = existing ? existing.checklist.find(i => i.text === text) : null;
             return { text, checked: match ? match.checked : false }; }) };
});
```
-/
def buildProjectSteps (oldSteps : List Step) :
    List TemplateEntry → Nat → List Step
  | [], _ => []
  | t :: rest, idx =>
      let existing : Option Step :=
        match oldSteps.find? (fun s => s.id == t.id) with
        | some s => some s
        | none => oldSteps.get? idx
      { id := if t.id = 0 then idx + 1 else t.id,
        title := t.title,
        completed := match existing with
          | some e => e.completed
          | none => false,
        completedAt := match existing with
          | some e => e.completedAt
          | none => none,
        notes := match existing with
          | some e => e.notes
          | none => NotesField.str "",
        checklist := t.defaultChecklist.map fun text =>
          match existing with
          | some e =>
              match e.checklist.find? (fun item => item.text == text) with
              | some m => { text := text, checked := m.checked }
              | none => { text := text, checked := false }
          | none => { text := text, checked := false } }
        :: buildProjectSteps oldSteps rest (idx + 1)

/-- The project-specific save: replaces the active project's steps by the
rebuilt list, then only clamps `currentStepIndex` when it fell out of
bounds:
```
if (currentStepIndex >= steps.length) {
  currentStepIndex = Math.max(0, steps.length - 1);
}
```
(no recomputation of the first-incomplete pointer, no status update). -/
def applyProjectTemplate (p : Project) (tmpl : List TemplateEntry) :
    Project :=
  let newSteps := buildProjectSteps p.steps tmpl 0
  let ci :=
    if p.currentStepIndex ≥ (newSteps.length : Int) then
      max 0 ((newSteps.length : Int) - 1)
    else p.currentStepIndex
  { p with steps := newSteps, currentStepIndex := ci }

/-!  Store adapter (`FirestoreManager`) and the legacy migration
(`App.handleMigration`). -/

/-- A workspace document (`{ projects, customSteps?, lastAccessedAt }`). -/
structure Workspace where
  projects : List Project := []
  customSteps : Option (List TemplateEntry) := none
  lastAccessedAt : Option String := none
deriving DecidableEq, Repr

/-- Outcome of the underlying `getDoc` round-trip. -/
inductive ReadResult where
  | found : Workspace → ReadResult
  | notFound : ReadResult
  | error : String → ReadResult
deriving DecidableEq, Repr

/-- Outcome of the underlying `setDoc` round-trip. -/
inductive WriteResult where
  | ok : WriteResult
  | err : String → WriteResult
deriving DecidableEq, Repr

/-- `FirestoreManager.getWorkspaceData`: `null` without an access code;
otherwise the document's data when it exists, `null` when it does not, and
`null` again when the fetch throws (the error is logged and swallowed). -/
def getWorkspaceData (accessCode : Option String) (r : ReadResult) :
    Option Workspace :=
  match accessCode with
  | none => none
  | some _ =>
      match r with
      | ReadResult.found w => some w
      | ReadResult.notFound => none
      | ReadResult.error _ => none

/-- How `FirestoreManager.saveWorkspace` terminates: by throwing (only the
missing-access-code guard throws) or by returning normally;
`alerted = true` records that the catch block showed the write error to the
user instead of rethrowing it. -/
inductive SaveOutcome where
  | thrown : String → SaveOutcome
  | returned : Bool → SaveOutcome
deriving DecidableEq, Repr

/-- `FirestoreManager.saveWorkspace`: throws when no access code is set;
a rejected `setDoc` is caught, alerted, and the function returns normally. -/
def saveWorkspace (accessCode : Option String) (w : WriteResult) :
    SaveOutcome :=
  match accessCode with
  | none => SaveOutcome.thrown "No access code set"
  | some _ =>
      match w with
      | WriteResult.ok => SaveOutcome.returned false
      | WriteResult.err _ => SaveOutcome.returned true

/-- `App.handleMigration`, after the confirm dialog: parses the legacy local
data, sets the access code, awaits `saveWorkspace`, then deletes the local
legacy data.  Returns whether `localStorage.removeItem('protracker_projects')`
ran (it is skipped only if `saveWorkspace` threw into the catch block). -/
def handleMigration (code : String) (_legacyProjects : List Project)
    (w : WriteResult) : Bool :=
  match saveWorkspace (some code) w with
  | SaveOutcome.thrown _ => false
  | SaveOutcome.returned _ => true

/-!  Spec-side predicates (phrased independently of the code's
`findIndex`-based recomputation, so the theorems relate the code to the
specification rather than restate the code). -/

/-- `i` is the index of the first step whose `completed` flag is `false`. -/
def firstIncompleteAt (l : List Step) (i : Nat) : Prop :=
  i < l.length ∧ (l.getD i default).completed = false ∧
    ∀ j, j < i → (l.getD j default).completed = true

instance (l : List Step) (i : Nat) : Decidable (firstIncompleteAt l i) := by
  unfold firstIncompleteAt; infer_instance

/-- Every step of the list is completed. -/
def allStepsCompleted (l : List Step) : Prop := ∀ s ∈ l, s.completed = true

instance (l : List Step) : Decidable (allStepsCompleted l) := by
  unfold allStepsCompleted; infer_instance

/-- The claimed post-state of a `completeStep`/`revertStep` call:
`currentStepIndex` is the first incomplete step's index and the status is
`active`, or — when every step is completed — `steps.length - 1` and
`completed`. -/
def statusAndPointerSpec (q : Project) : Prop :=
  (¬ allStepsCompleted q.steps →
     ∃ k, firstIncompleteAt q.steps k ∧ q.currentStepIndex = (k : Int) ∧
       q.status = "active") ∧
  (allStepsCompleted q.steps →
     q.currentStepIndex = (q.steps.length : Int) - 1 ∧
       q.status = "completed")

/-- The data-model invariant of the spec: `status = "completed"` iff every
step is completed, and `currentStepIndex` points at the first incomplete
step, or at the last step when all are complete. -/
def invariant (p : Project) : Prop :=
  (p.status = "completed" ↔ allStepsCompleted p.steps) ∧
  (allStepsCompleted p.steps →
    p.currentStepIndex = (p.steps.length : Int) - 1) ∧
  (∀ k, k < p.steps.length → firstIncompleteAt p.steps k →
    p.currentStepIndex = (k : Int))

instance (p : Project) : Decidable (invariant p) := by
  unfold invariant; infer_instance

/-!  Helper lemmas about `findIndexOpt`, `updateAt` and `List.getD`. -/

theorem findIndexOpt_eq_none_iff {p : α → Bool} {l : List α} :
    findIndexOpt p l = none ↔ ∀ x ∈ l, p x = false := by
  induction l with
  | nil => simp [findIndexOpt]
  | cons x xs ih =>
      by_cases hx : p x <;> simp [findIndexOpt, hx, ih]

theorem findIndexOpt_spec {p : α → Bool} (d : α) :
    ∀ {l : List α} {k : Nat}, findIndexOpt p l = some k →
      k < l.length ∧ p (l.getD k d) = true ∧
        ∀ j, j < k → p (l.getD j d) = false := by
  intro l
  induction l with
  | nil => intro k h; simp [findIndexOpt] at h
  | cons x xs ih =>
      intro k h
      by_cases hx : p x
      · simp [findIndexOpt, hx] at h
        subst h
        exact ⟨Nat.succ_pos _, by simpa using hx, fun j hj => absurd hj (Nat.not_lt_zero j)⟩
      · simp [findIndexOpt, hx] at h
        obtain ⟨k', hk', rfl⟩ := h
        obtain ⟨h1, h2, h3⟩ := ih hk'
        refine ⟨Nat.succ_lt_succ h1, by simpa using h2, ?_⟩
        intro j hj
        cases j with
        | zero => simpa using (by simpa using hx : p x = false)
        | succ j' => simpa using h3 j' (Nat.lt_of_succ_lt_succ hj)

theorem findIndexOpt_of_first {p : α → Bool} (d : α) :
    ∀ {l : List α} {k : Nat}, k < l.length → p (l.getD k d) = true →
      (∀ j, j < k → p (l.getD j d) = false) →
      findIndexOpt p l = some k := by
  intro l
  induction l with
  | nil => intro k hk; exact absurd hk (by simp)
  | cons x xs ih =>
      intro k hk hpk hlt
      cases k with
      | zero =>
          simp only [List.getD_cons_zero] at hpk
          simp [findIndexOpt, hpk]
      | succ k' =>
          have hx : p x = false := by simpa using hlt 0 (Nat.succ_pos _)
          have hk' : k' < xs.length := Nat.lt_of_succ_lt_succ hk
          have hpk' : p (xs.getD k' d) = true := by simpa using hpk
          have hlt' : ∀ j, j < k' → p (xs.getD j d) = false := by
            intro j hj
            simpa using hlt (j + 1) (Nat.succ_lt_succ hj)
          simp [findIndexOpt, hx, ih hk' hpk' hlt']

theorem updateAt_length (f : α → α) :
    ∀ (i : Nat) (l : List α), (updateAt i f l).length = l.length := by
  intro i l
  induction l generalizing i with
  | nil => simp [updateAt]
  | cons x xs ih => cases i <;> simp [updateAt, ih]

theorem updateAt_getD_self (f : α → α) (d : α) :
    ∀ (i : Nat) (l : List α), i < l.length →
      (updateAt i f l).getD i d = f (l.getD i d) := by
  intro i l
  induction l generalizing i with
  | nil => intro h; exact absurd h (by simp)
  | cons x xs ih =>
      intro h
      cases i with
      | zero => rfl
      | succ n => simpa [updateAt] using ih n (Nat.lt_of_succ_lt_succ h)

theorem updateAt_getD_ne (f : α → α) (d : α) :
    ∀ (i j : Nat) (l : List α), j ≠ i →
      (updateAt i f l).getD j d = l.getD j d := by
  intro i j l
  induction l generalizing i j with
  | nil => intro _; simp [updateAt]
  | cons x xs ih =>
      intro hne
      cases i with
      | zero =>
          cases j with
          | zero => exact absurd rfl hne
          | succ j' => simp [updateAt]
      | succ i' =>
          cases j with
          | zero => simp [updateAt]
          | succ j' =>
              have : j' ≠ i' := fun h => hne (by rw [h])
              simpa [updateAt] using ih i' j' this

theorem getD_map (f : α → β) (d : α) (d' : β) :
    ∀ (l : List α) (j : Nat), j < l.length →
      (l.map f).getD j d' = f (l.getD j d) := by
  intro l
  induction l with
  | nil => intro j h; exact absurd h (by simp)
  | cons x xs ih =>
      intro j h
      cases j with
      | zero => rfl
      | succ j' => simpa using ih j' (Nat.lt_of_succ_lt_succ h)

theorem saveAndRefresh_steps (p : Project) :
    (saveAndRefresh p).steps = p.steps := by
  unfold saveAndRefresh
  cases findIndexOpt (fun s => !s.completed) p.steps <;> rfl

theorem completeStep_steps (p : Project) (i : Nat) (docNum : Option String)
    (dateISO : String) :
    (completeStep p i docNum dateISO).steps =
      updateAt i (completeStepUpdater docNum dateISO) p.steps := by
  unfold completeStep
  rw [saveAndRefresh_steps]

theorem revertStep_steps (p : Project) (i : Nat) :
    (revertStep p i).steps = updateAt i revertStepUpdater p.steps := by
  unfold revertStep
  rw [saveAndRefresh_steps]

theorem getD_mem (d : α) : ∀ {l : List α} {i : Nat}, i < l.length →
    l.getD i d ∈ l := by
  intro l
  induction l with
  | nil => intro i h; exact absurd h (by simp)
  | cons x xs ih =>
      intro i h
      cases i with
      | zero => exact List.mem_cons_self _ _
      | succ n =>
          exact List.mem_cons_of_mem _ (ih (Nat.lt_of_succ_lt_succ h))

theorem saveAndRefresh_of_some {p : Project} {i : Nat}
    (h : findIndexOpt (fun s => !s.completed) p.steps = some i) :
    (saveAndRefresh p).currentStepIndex = (i : Int) ∧
      (saveAndRefresh p).status = "active" := by
  unfold saveAndRefresh
  rw [h]
  exact ⟨rfl, rfl⟩

theorem saveAndRefresh_of_none {p : Project}
    (h : findIndexOpt (fun s => !s.completed) p.steps = none) :
    (saveAndRefresh p).currentStepIndex = (p.steps.length : Int) - 1 ∧
      (saveAndRefresh p).status = "completed" := by
  unfold saveAndRefresh
  rw [h]
  exact ⟨rfl, rfl⟩

/-- `_saveAndRefreshStep` establishes the claimed pointer/status relation on
any project it is run on. -/
theorem statusAndPointerSpec_saveAndRefresh (p : Project) :
    statusAndPointerSpec (saveAndRefresh p) := by
  unfold statusAndPointerSpec
  rw [saveAndRefresh_steps]
  cases h : findIndexOpt (fun s => !s.completed) p.steps with
  | some i =>
      obtain ⟨hci, hst⟩ := saveAndRefresh_of_some h
      rw [hci, hst]
      obtain ⟨hilen, hpi, hfirst⟩ := findIndexOpt_spec default h
      have hstep : (p.steps.getD i default).completed = false := by
        simpa using hpi
      have hnall : ¬ allStepsCompleted p.steps := by
        intro hall
        exact absurd (hstep.symm.trans (hall _ (getD_mem default hilen)))
          (by decide)
      constructor
      · intro _
        refine ⟨i, ⟨hilen, hstep, ?_⟩, rfl, rfl⟩
        intro j hj
        simpa using hfirst j hj
      · intro hall
        exact absurd hall hnall
  | none =>
      obtain ⟨hci, hst⟩ := saveAndRefresh_of_none h
      rw [hci, hst]
      have hall : allStepsCompleted p.steps := by
        intro s hs
        simpa using findIndexOpt_eq_none_iff.mp h s hs
      constructor
      · intro hna
        exact absurd hall hna
      · intro _
        exact ⟨rfl, rfl⟩

/-- `_saveAndRefreshStep` establishes the full data-model invariant on any
project it is run on. -/
theorem invariant_saveAndRefresh (p : Project) :
    invariant (saveAndRefresh p) := by
  unfold invariant
  rw [saveAndRefresh_steps]
  cases h : findIndexOpt (fun s => !s.completed) p.steps with
  | some i =>
      obtain ⟨hci, hst⟩ := saveAndRefresh_of_some h
      rw [hci, hst]
      obtain ⟨hilen, hpi, hfirst⟩ := findIndexOpt_spec default h
      have hstep : (p.steps.getD i default).completed = false := by
        simpa using hpi
      have hnall : ¬ allStepsCompleted p.steps := by
        intro hall
        exact absurd (hstep.symm.trans (hall _ (getD_mem default hilen)))
          (by decide)
      refine ⟨iff_of_false (by decide) hnall, ?_, ?_⟩
      · intro hall
        exact absurd hall hnall
      · intro k _ hfk
        have hk2 : findIndexOpt (fun s => !s.completed) p.steps = some k := by
          apply findIndexOpt_of_first default hfk.1
          · show (!(p.steps.getD k default).completed) = true
            rw [hfk.2.1]
            decide
          · intro j hj
            show (!(p.steps.getD j default).completed) = false
            rw [hfk.2.2 j hj]
            decide
        have hik : i = k := by
          injection h.symm.trans hk2
        rw [hik]
  | none =>
      obtain ⟨hci, hst⟩ := saveAndRefresh_of_none h
      rw [hci, hst]
      have hall : allStepsCompleted p.steps := by
        intro s hs
        simpa using findIndexOpt_eq_none_iff.mp h s hs
      refine ⟨iff_of_true rfl hall, fun _ => rfl, ?_⟩
      intro k _ hfk
      exact absurd ((hfk.2.1).symm.trans (hall _ (getD_mem default hfk.1)))
        (by decide)

/-- C1: For every project and every step index, after a `completeStep` or
`revertStep` call (`toggleStepCompletion` on any step, not only the current
one), `currentStepIndex` equals the index of the first step with
`completed === false`, or `steps.length - 1` if every step is completed;
and in the all-completed case `status` is set to `"completed"`, otherwise
to `"active"`. -/
theorem completeRevert_recompute_currentStep (p : Project) (i : Nat)
    (docNum : Option String) (dateISO : String) :
    statusAndPointerSpec (completeStep p i docNum dateISO) ∧
    statusAndPointerSpec (revertStep p i) := by
  constructor
  · unfold completeStep
    exact statusAndPointerSpec_saveAndRefresh _
  · unfold revertStep
    exact statusAndPointerSpec_saveAndRefresh _

def c1Sample : Project :=
  { status := "active", currentStepIndex := 0,
    steps := [{ id := 1, title := "s1", completed := false, completedAt := none },
              { id := 2, title := "s2", completed := false, completedAt := none }] }

def c1SampleAlmost : Project :=
  { status := "active", currentStepIndex := 1,
    steps := [{ id := 1, title := "s1", completed := true, completedAt := some "d0" },
              { id := 2, title := "s2", completed := false, completedAt := none }] }

theorem completeRevert_recompute_currentStep_witness :
    (∃ k, firstIncompleteAt (completeStep c1Sample 0 none "d1").steps k ∧
      (completeStep c1Sample 0 none "d1").currentStepIndex = (k : Int) ∧
      (completeStep c1Sample 0 none "d1").status = "active") ∧
    ((completeStep c1SampleAlmost 1 none "d1").currentStepIndex =
        ((completeStep c1SampleAlmost 1 none "d1").steps.length : Int) - 1 ∧
      (completeStep c1SampleAlmost 1 none "d1").status = "completed") :=
  ⟨(completeRevert_recompute_currentStep c1Sample 0 none "d1").1.1 (by decide),
   (completeRevert_recompute_currentStep c1SampleAlmost 1 none "d1").1.2
     (by decide)⟩

/-!  Congruence machinery: the invariant depends only on the list of
`completed` flags, the `status` and the `currentStepIndex`. -/

theorem default_step_completed : (default : Step).completed = false := rfl

theorem completed_getD (l : List Step) (i : Nat) (d : Step) :
    (l.getD i d).completed = (l.map fun s => s.completed).getD i d.completed := by
  induction l generalizing i with
  | nil => rfl
  | cons x xs ih =>
      cases i with
      | zero => rfl
      | succ n => exact ih n

theorem allStepsCompleted_iff_map (l : List Step) :
    allStepsCompleted l ↔ ∀ b ∈ l.map (fun s => s.completed), b = true := by
  unfold allStepsCompleted
  simp

theorem firstIncompleteAt_iff_map (l : List Step) (k : Nat) :
    firstIncompleteAt l k ↔
      (k < (l.map fun s => s.completed).length ∧
       (l.map fun s => s.completed).getD k false = false ∧
       ∀ j, j < k → (l.map fun s => s.completed).getD j false = true) := by
  unfold firstIncompleteAt
  rw [List.length_map]
  constructor
  · rintro ⟨h1, h2, h3⟩
    refine ⟨h1, ?_, ?_⟩
    · rw [← default_step_completed, ← completed_getD]; exact h2
    · intro j hj
      rw [← default_step_completed, ← completed_getD]; exact h3 j hj
  · rintro ⟨h1, h2, h3⟩
    refine ⟨h1, ?_, ?_⟩
    · rw [completed_getD, default_step_completed]; exact h2
    · intro j hj
      rw [completed_getD, default_step_completed]; exact h3 j hj

theorem invariant_congr {p q : Project}
    (hm : q.steps.map (fun s => s.completed) =
      p.steps.map (fun s => s.completed))
    (hs : q.status = p.status) (hc : q.currentStepIndex = p.currentStepIndex)
    (h : invariant p) : invariant q := by
  have hlen : q.steps.length = p.steps.length := by
    have := congrArg List.length hm
    simpa using this
  have hall : allStepsCompleted q.steps ↔ allStepsCompleted p.steps := by
    rw [allStepsCompleted_iff_map, hm, ← allStepsCompleted_iff_map]
  have hfia : ∀ k, firstIncompleteAt q.steps k ↔ firstIncompleteAt p.steps k := by
    intro k
    rw [firstIncompleteAt_iff_map, hm, ← firstIncompleteAt_iff_map]
  obtain ⟨h1, h2, h3⟩ := h
  unfold invariant
  refine ⟨?_, ?_, ?_⟩
  · rw [hs, hall]; exact h1
  · intro ha
    rw [hc, hlen]
    exact h2 (hall.mp ha)
  · intro k hk hf
    rw [hc]
    exact h3 k (hlen ▸ hk) ((hfia k).mp hf)

theorem map_completed_updateAt (f : Step → Step)
    (hf : ∀ s, (f s).completed = s.completed) :
    ∀ (i : Nat) (l : List Step),
      (updateAt i f l).map (fun s => s.completed) =
        l.map (fun s => s.completed) := by
  intro i l
  induction l generalizing i with
  | nil => simp [updateAt]
  | cons x xs ih =>
      cases i with
      | zero => simp [updateAt, hf]
      | succ n => simp [updateAt, ih]

theorem map_completed_zipWith (g : Step → TemplateEntry → Step)
    (hg : ∀ s t, (g s t).completed = s.completed) :
    ∀ (l : List Step) (tmpl : List TemplateEntry), l.length = tmpl.length →
      (List.zipWith g l tmpl).map (fun s => s.completed) =
        l.map (fun s => s.completed) := by
  intro l
  induction l with
  | nil => intro tmpl _; simp
  | cons x xs ih =>
      intro tmpl h
      cases tmpl with
      | nil => simp at h
      | cons t ts => simpa [hg] using ih ts (by simpa using h)

theorem applyGlobalTemplate_of_len {tmpl : List TemplateEntry}
    {p : Project} (hlen : p.steps.length = tmpl.length) :
    applyGlobalTemplate tmpl p =
      { p with steps := List.zipWith globalStepUpdater p.steps tmpl } := by
  unfold applyGlobalTemplate
  rw [if_pos hlen]

theorem applyGlobalTemplate_of_ne_len {tmpl : List TemplateEntry}
    {p : Project} (hlen : p.steps.length ≠ tmpl.length) :
    applyGlobalTemplate tmpl p = p := by
  unfold applyGlobalTemplate
  rw [if_neg hlen]

/-- C2 (amended): every operation on a project other than the
project-specific template propagation preserves the data-model invariant —
step completion/revert establish it outright, and checklist mutation, note
mutation and global template propagation leave the completed flags, status
and pointer untouched.  (The project-specific save violates it, see the
counterexample.) -/
theorem operations_preserve_invariant (p : Project) (hp : invariant p) :
    (∀ i docNum dateISO, invariant (completeStep p i docNum dateISO)) ∧
    (∀ i, invariant (revertStep p i)) ∧
    (∀ si ii b now, invariant (updateChecklistItem p si ii
      (checkboxChange b now))) ∧
    (∀ si ii toIso v, invariant (updateChecklistItem p si ii
      (saveDate toIso v))) ∧
    (∀ si text dl now, invariant (addChecklistItem p si text dl now)) ∧
    (∀ si ii, invariant (deleteChecklistItem p si ii)) ∧
    (∀ si text now, invariant (addTimelineEntry p si text now)) ∧
    (∀ si text now, invariant (addPostit p si text now)) ∧
    (∀ si ts, invariant (deleteTimelineEntry p si ts)) ∧
    (∀ si ii, invariant (deletePostit p si ii)) ∧
    (∀ tmpl, invariant (applyGlobalTemplate tmpl p)) := by
  refine ⟨?_, ?_, ?_, ?_, ?_, ?_, ?_, ?_, ?_, ?_, ?_⟩
  · intro i d t
    unfold completeStep
    exact invariant_saveAndRefresh _
  · intro i
    unfold revertStep
    exact invariant_saveAndRefresh _
  · intro si ii b now
    refine invariant_congr ?_ ?_ ?_ hp
    · exact map_completed_updateAt
        (checklistStepUpdater ii (checkboxChange b now)) (fun s => rfl)
        si p.steps
    · rfl
    · rfl
  · intro si ii toIso v
    refine invariant_congr ?_ ?_ ?_ hp
    · exact map_completed_updateAt
        (checklistStepUpdater ii (saveDate toIso v)) (fun s => rfl)
        si p.steps
    · rfl
    · rfl
  · intro si text dl now
    refine invariant_congr ?_ ?_ ?_ hp
    · exact map_completed_updateAt
        (addChecklistItemUpdater text dl now) (fun s => rfl) si p.steps
    · rfl
    · rfl
  · intro si ii
    refine invariant_congr ?_ ?_ ?_ hp
    · exact map_completed_updateAt
        (deleteChecklistItemUpdater ii) (fun s => rfl) si p.steps
    · rfl
    · rfl
  · intro si text now
    refine invariant_congr ?_ ?_ ?_ hp
    · exact map_completed_updateAt
        (addTimelineUpdater text now) (fun s => rfl) si p.steps
    · rfl
    · rfl
  · intro si text now
    refine invariant_congr ?_ ?_ ?_ hp
    · exact map_completed_updateAt
        (addPostitUpdater text now) (fun s => rfl) si p.steps
    · rfl
    · rfl
  · intro si ts
    refine invariant_congr ?_ ?_ ?_ hp
    · exact map_completed_updateAt
        (deleteTimelineUpdater ts) (fun s => rfl) si p.steps
    · rfl
    · rfl
  · intro si ii
    refine invariant_congr ?_ ?_ ?_ hp
    · exact map_completed_updateAt
        (deletePostitUpdater ii) (fun s => rfl) si p.steps
    · rfl
    · rfl
  · intro tmpl
    by_cases hlen : p.steps.length = tmpl.length
    · rw [applyGlobalTemplate_of_len hlen]
      exact invariant_congr (map_completed_zipWith globalStepUpdater
        (fun s t => rfl) p.steps tmpl hlen) rfl rfl hp
    · rw [applyGlobalTemplate_of_ne_len hlen]
      exact hp

def c2SampleDone : Project :=
  { status := "completed", currentStepIndex := 0,
    steps := [{ id := 1, title := "A", completed := true,
                completedAt := some "d1" }] }

def c2GrownTemplate : List TemplateEntry :=
  [{ id := 1, title := "A" }, { id := 2, title := "B" }]

/-- C2 counterexample: the project-specific template propagation does not
preserve the invariant.  A fully-completed one-step project (satisfying the
invariant) whose step list is extended by the project-specific save gains an
incomplete second step, yet keeps `status = "completed"` and
`currentStepIndex = 0` — the invariant fails on the result. -/
theorem projectTemplate_breaks_invariant :
    invariant c2SampleDone ∧
    ¬ invariant (applyProjectTemplate c2SampleDone c2GrownTemplate) := by
  constructor
  · decide
  · decide

def c2SampleActive : Project :=
  { status := "active", currentStepIndex := 0,
    steps := [{ id := 1, title := "A", completed := false,
                completedAt := none },
              { id := 2, title := "B", completed := true,
                completedAt := some "d2" }] }

theorem operations_preserve_invariant_witness :
    invariant (addTimelineEntry c2SampleActive 0 "note" "t1") :=
  (operations_preserve_invariant c2SampleActive (by decide)).2.2.2.2.2.2.1
    0 "note" "t1"

/-!  Progress percentage: formula, monotonicity, bounds (claim C3). -/

theorem mathRound_mono {a b : ℚ} (h : a ≤ b) : mathRound a ≤ mathRound b :=
  Int.floor_le_floor (by linarith)

theorem length_filter_updateAt_ge (f : Step → Step)
    (hf : ∀ s, (f s).completed = true) :
    ∀ (i : Nat) (l : List Step),
      (l.filter fun s => s.completed).length ≤
        ((updateAt i f l).filter fun s => s.completed).length := by
  intro i l
  induction l generalizing i with
  | nil => simp [updateAt]
  | cons x xs ih =>
      cases i with
      | zero =>
          by_cases hx : x.completed = true
          · simp [updateAt, List.filter_cons, hx, hf x]
          · simp only [updateAt, List.filter_cons, hx, hf x]
            simp only [Bool.not_eq_true] at hx
            simp [hx]
      | succ n =>
          by_cases hx : x.completed = true
          · simpa [updateAt, List.filter_cons, hx] using ih n
          · simp only [Bool.not_eq_true] at hx
            simpa [updateAt, List.filter_cons, hx] using ih n

theorem length_filter_updateAt_le (f : Step → Step)
    (hf : ∀ s, (f s).completed = false) :
    ∀ (i : Nat) (l : List Step),
      ((updateAt i f l).filter fun s => s.completed).length ≤
        (l.filter fun s => s.completed).length := by
  intro i l
  induction l generalizing i with
  | nil => simp [updateAt]
  | cons x xs ih =>
      cases i with
      | zero =>
          by_cases hx : x.completed = true
          · simp [updateAt, List.filter_cons, hx, hf x]
          · simp only [Bool.not_eq_true] at hx
            simp [updateAt, List.filter_cons, hx, hf x]
      | succ n =>
          by_cases hx : x.completed = true
          · simpa [updateAt, List.filter_cons, hx] using ih n
          · simp only [Bool.not_eq_true] at hx
            simpa [updateAt, List.filter_cons, hx] using ih n

theorem completeStep_total (p : Project) (i : Nat) (d : Option String)
    (t : String) :
    totalStepCount (completeStep p i d t) = totalStepCount p := by
  unfold totalStepCount
  rw [completeStep_steps]
  exact updateAt_length _ _ _

theorem revertStep_total (p : Project) (i : Nat) :
    totalStepCount (revertStep p i) = totalStepCount p := by
  unfold totalStepCount
  rw [revertStep_steps]
  exact updateAt_length _ _ _

theorem completeStep_count_ge (p : Project) (i : Nat) (d : Option String)
    (t : String) :
    completedStepCount p ≤ completedStepCount (completeStep p i d t) := by
  unfold completedStepCount
  rw [completeStep_steps]
  exact length_filter_updateAt_ge _ (fun s => rfl) i p.steps

theorem revertStep_count_le (p : Project) (i : Nat) :
    completedStepCount (revertStep p i) ≤ completedStepCount p := by
  unfold completedStepCount
  rw [revertStep_steps]
  exact length_filter_updateAt_le _ (fun s => rfl) i p.steps

theorem progress_mono_nat {c1 c2 t : Nat} (ht : 0 < t) (hc : c1 ≤ c2) :
    mathRound ((c1 : ℚ) / (t : ℚ) * 100) ≤
      mathRound ((c2 : ℚ) / (t : ℚ) * 100) := by
  have ht' : (0 : ℚ) < (t : ℚ) := by exact_mod_cast ht
  have hc' : (c1 : ℚ) ≤ (c2 : ℚ) := by exact_mod_cast hc
  apply mathRound_mono
  have h1 : (c1 : ℚ) / t ≤ (c2 : ℚ) / t :=
    (div_le_div_iff_of_pos_right ht').mpr hc'
  exact mul_le_mul_of_nonneg_right h1 (by norm_num)

theorem progress_bounds {c t : Nat} (ht : 0 < t) (hc : c ≤ t) :
    0 ≤ mathRound ((c : ℚ) / (t : ℚ) * 100) ∧
      mathRound ((c : ℚ) / (t : ℚ) * 100) ≤ 100 := by
  have ht' : (0 : ℚ) < (t : ℚ) := by exact_mod_cast ht
  have hq0 : (0 : ℚ) ≤ (c : ℚ) / t * 100 := by positivity
  constructor
  · unfold mathRound
    have : ((0 : ℤ) : ℚ) ≤ (c : ℚ) / t * 100 + 1 / 2 := by
      push_cast
      linarith
    exact Int.le_floor.mpr this
  · have hle1 : (c : ℚ) / t ≤ 1 := by
      rw [div_le_one ht']
      exact_mod_cast hc
    unfold mathRound
    have h201 : (c : ℚ) / t * 100 + 1 / 2 ≤ 201 / 2 := by nlinarith [hle1]
    calc ⌊(c : ℚ) / t * 100 + 1 / 2⌋ ≤ ⌊(201 : ℚ) / 2⌋ :=
          Int.floor_le_floor h201
      _ = 100 := by
          rw [Int.floor_eq_iff]
          constructor <;> norm_num

/-- C3: for every project with at least one step,
`progressPercent(project) = round(100 * completedStepCount /
totalStepCount)`; it is monotonically non-decreasing under `completeStep`,
non-increasing under `revertStep`, and always in `[0, 100]`. -/
theorem progressPercent_props (p : Project) (h : 1 ≤ totalStepCount p) :
    progressPercent p = some (progressVal p) ∧
    progressVal p =
      mathRound (100 * (completedStepCount p : ℚ) / (totalStepCount p : ℚ)) ∧
    (∀ i docNum dateISO,
      progressVal p ≤ progressVal (completeStep p i docNum dateISO)) ∧
    (∀ i, progressVal (revertStep p i) ≤ progressVal p) ∧
    0 ≤ progressVal p ∧ progressVal p ≤ 100 := by
  have ht : 0 < totalStepCount p := h
  have hcle : completedStepCount p ≤ totalStepCount p :=
    List.length_filter_le _ _
  refine ⟨?_, ?_, ?_, ?_, ?_, ?_⟩
  · have hne : ¬ p.steps.length = 0 := by
      unfold totalStepCount at ht
      omega
    unfold progressPercent
    rw [if_neg hne]
  · unfold progressVal
    congr 1
    ring
  · intro i docNum dateISO
    unfold progressVal
    rw [completeStep_total]
    exact progress_mono_nat ht (completeStep_count_ge p i docNum dateISO)
  · intro i
    unfold progressVal
    rw [revertStep_total]
    exact progress_mono_nat ht (revertStep_count_le p i)
  · exact (progress_bounds ht hcle).1
  · exact (progress_bounds ht hcle).2

def c3Sample : Project :=
  { status := "active", currentStepIndex := 0,
    steps := [{ id := 1, title := "s1", completed := false, completedAt := none },
              { id := 2, title := "s2", completed := true,
                completedAt := some "d2" },
              { id := 3, title := "s3", completed := false,
                completedAt := none }] }

theorem progressPercent_props_witness :
    progressPercent c3Sample = some (progressVal c3Sample) ∧
      0 ≤ progressVal c3Sample ∧ progressVal c3Sample ≤ 100 :=
  ⟨(progressPercent_props c3Sample (by decide)).1,
   (progressPercent_props c3Sample (by decide)).2.2.2.2.1,
   (progressPercent_props c3Sample (by decide)).2.2.2.2.2⟩

/-!  Global template propagation (claim C4). -/

theorem zipWith_getD {f : α → β → γ} (d1 : α) (d2 : β) (d3 : γ) :
    ∀ (l1 : List α) (l2 : List β) (i : Nat), i < l1.length → i < l2.length →
      (List.zipWith f l1 l2).getD i d3 = f (l1.getD i d1) (l2.getD i d2) := by
  intro l1
  induction l1 with
  | nil => intro l2 i h1 _; exact absurd h1 (by simp)
  | cons x xs ih =>
      intro l2 i h1 h2
      cases l2 with
      | nil => exact absurd h2 (by simp)
      | cons y ys =>
          cases i with
          | zero => rfl
          | succ n =>
              simpa using ih ys n (Nat.lt_of_succ_lt_succ h1)
                (Nat.lt_of_succ_lt_succ h2)

theorem find?_first {p : α → Bool} (d : α) :
    ∀ (l : List α) (k : Nat), k < l.length → p (l.getD k d) = true →
      (∀ k', k' < k → p (l.getD k' d) = false) →
      l.find? p = some (l.getD k d) := by
  intro l
  induction l with
  | nil => intro k hk; exact absurd hk (by simp)
  | cons x xs ih =>
      intro k hk hpk hfirst
      cases k with
      | zero =>
          simp only [List.getD_cons_zero] at hpk ⊢
          exact List.find?_cons_of_pos _ hpk
      | succ n =>
          have hx : p x = false := by simpa using hfirst 0 (Nat.succ_pos n)
          rw [List.find?_cons_of_neg _ (by simp [hx])]
          simp only [List.getD_cons_succ] at hpk ⊢
          refine ih n (by simpa using hk) hpk ?_
          intro k' hk'
          simpa using hfirst (k' + 1) (Nat.succ_lt_succ hk')

theorem rebuildChecklist_length (ts : List String)
    (old : List ChecklistItem) :
    (rebuildChecklist ts old).length = ts.length := by
  unfold rebuildChecklist
  rw [List.length_map]

theorem rebuildChecklist_getD (ts : List String) (old : List ChecklistItem)
    (j : Nat) (hj : j < ts.length) :
    (rebuildChecklist ts old).getD j default =
      (match old.find? (fun item => item.text == ts.getD j "") with
       | some m => { text := ts.getD j "", checked := m.checked }
       | none => { text := ts.getD j "", checked := false }) := by
  unfold rebuildChecklist
  rw [getD_map _ "" default ts j hj]

/-- Spec-side description of the checklist rebuild: the result follows the
new default texts positionally; a text with no occurrence in the old
checklist starts unchecked, and a text whose first old occurrence is at
index `k` keeps that occurrence's `checked` state. -/
def checkedPreserved (old : List ChecklistItem) (newTexts : List String)
    (result : List ChecklistItem) : Prop :=
  result.length = newTexts.length ∧
  ∀ j, j < newTexts.length →
    (result.getD j default).text = newTexts.getD j "" ∧
    ((∀ o ∈ old, o.text ≠ newTexts.getD j "") →
      (result.getD j default).checked = false) ∧
    (∀ k, k < old.length →
      (old.getD k default).text = newTexts.getD j "" →
      (∀ k', k' < k → (old.getD k' default).text ≠ newTexts.getD j "") →
      (result.getD j default).checked = (old.getD k default).checked)

theorem rebuildChecklist_spec (ts : List String)
    (old : List ChecklistItem) :
    checkedPreserved old ts (rebuildChecklist ts old) := by
  constructor
  · exact rebuildChecklist_length ts old
  · intro j hj
    rw [rebuildChecklist_getD ts old j hj]
    refine ⟨?_, ?_, ?_⟩
    · cases old.find? (fun item => item.text == ts.getD j "") <;> rfl
    · intro hnone
      have hf : old.find? (fun item => item.text == ts.getD j "") = none := by
        rw [List.find?_eq_none]
        intro x hx
        show ¬ (x.text == ts.getD j "") = true
        rw [beq_iff_eq]
        exact hnone x hx
      rw [hf]
    · intro k hk hkeq hkfirst
      have hf : old.find? (fun item => item.text == ts.getD j "") =
          some (old.getD k default) := by
        apply find?_first default old k hk
        · show ((old.getD k default).text == ts.getD j "") = true
          rw [beq_iff_eq]
          exact hkeq
        · intro k' hk'
          show ((old.getD k' default).text == ts.getD j "") = false
          rw [beq_eq_false_iff_ne]
          exact hkfirst k' hk'
      rw [hf]

/-- C4: global template propagation — every project whose step count equals
the edited template's length has each step's title overwritten positionally
and its checklist rebuilt from the template's default texts, preserving
`checked` for texts present verbatim in both the old checklist and the new
defaults (first occurrence) and starting every other item unchecked (the
spec's example instance is included verbatim); every project whose step
count differs from the template length is left completely unchanged. -/
theorem globalTemplate_props (tmpl : List TemplateEntry) (p : Project) :
    (p.steps.length ≠ tmpl.length → applyGlobalTemplate tmpl p = p) ∧
    (p.steps.length = tmpl.length →
      (applyGlobalTemplate tmpl p).steps.length = p.steps.length ∧
      ∀ i, i < p.steps.length →
        ((applyGlobalTemplate tmpl p).steps.getD i default).title =
          (tmpl.getD i default).title ∧
        ((applyGlobalTemplate tmpl p).steps.getD i default).completed =
          (p.steps.getD i default).completed ∧
        checkedPreserved (p.steps.getD i default).checklist
          (tmpl.getD i default).defaultChecklist
          ((applyGlobalTemplate tmpl p).steps.getD i default).checklist) ∧
    rebuildChecklist ["A", "C"]
        [{ text := "A", checked := true }, { text := "B", checked := false }] =
      [{ text := "A", checked := true }, { text := "C", checked := false }] := by
  refine ⟨?_, ?_, by decide⟩
  · intro hlen
    exact applyGlobalTemplate_of_ne_len hlen
  · intro hlen
    have hsteps : (applyGlobalTemplate tmpl p).steps =
        List.zipWith globalStepUpdater p.steps tmpl := by
      rw [applyGlobalTemplate_of_len hlen]
    constructor
    · rw [hsteps]
      simp [List.length_zipWith, hlen]
    · intro i hi
      have hi2 : i < tmpl.length := hlen ▸ hi
      have hget : (applyGlobalTemplate tmpl p).steps.getD i default =
          globalStepUpdater (p.steps.getD i default)
            (tmpl.getD i default) := by
        rw [hsteps]
        exact zipWith_getD default default default p.steps tmpl i hi hi2
      rw [hget]
      exact ⟨rfl, rfl, rebuildChecklist_spec _ _⟩

def c4Sample : Project :=
  { status := "active", currentStepIndex := 0,
    steps := [{ id := 1, title := "old", completed := false,
                completedAt := none,
                checklist := [{ text := "A", checked := true },
                              { text := "B", checked := false }] }] }

def c4Tmpl : List TemplateEntry :=
  [{ id := 1, title := "new", defaultChecklist := ["A", "C"] }]

def c4TmplLong : List TemplateEntry :=
  [{ id := 1, title := "new" }, { id := 2, title := "added" }]

theorem globalTemplate_props_witness :
    applyGlobalTemplate c4TmplLong c4Sample = c4Sample ∧
    ((applyGlobalTemplate c4Tmpl c4Sample).steps.getD 0 default).title =
      "new" :=
  ⟨(globalTemplate_props c4TmplLong c4Sample).1 (by decide),
   (((globalTemplate_props c4Tmpl c4Sample).2.1 (by decide)).2 0
     (by decide)).1⟩

/-!  Lazy note migration (claim C5). -/

/-- C5: `migrateStepNotes` is idempotent — a second run (with any wall-clock
value) returns the step of the first run unchanged, so repeated loads never
duplicate entries; a string `notes` field becomes a single timeline entry
(an empty string yields no entries); a missing `timeline` is derived from
the notes entries with falsy `type` or `type === "timeline"`, and a missing
`postits` from the entries with `type === "postit"`. -/
theorem migrateStepNotes_props :
    (∀ now1 now2 s, migrateStepNotes now2 (migrateStepNotes now1 s) =
      migrateStepNotes now1 s) ∧
    (∀ now s txt, s.notes = NotesField.str txt → s.timeline = none →
      (migrateStepNotes now s).timeline =
        some (if txt = "" then []
              else [{ timestamp := now, text := txt,
                      type := some "timeline" }])) ∧
    (∀ now s l, s.notes = NotesField.arr l → s.timeline = none →
      (migrateStepNotes now s).timeline =
        some (l.filter fun n =>
          isFalsyStr n.type || n.type == some "timeline")) ∧
    (∀ now s l, s.notes = NotesField.arr l → s.postits = none →
      (migrateStepNotes now s).postits =
        some (l.filter fun n => n.type == some "postit")) := by
  refine ⟨?_, ?_, ?_, ?_⟩
  · intro now1 now2 s
    obtain ⟨sid, st, sc, sca, sdn, sn, stl, spo, scl⟩ := s
    cases sn with
    | undef => cases stl <;> cases spo <;> simp [migrateStepNotes]
    | str txt =>
        by_cases htxt : txt = "" <;> cases stl <;> cases spo <;>
          simp [migrateStepNotes, htxt]
    | arr l => cases stl <;> cases spo <;> simp [migrateStepNotes]
  · intro now s txt hn ht
    obtain ⟨sid, st, sc, sca, sdn, sn, stl, spo, scl⟩ := s
    dsimp only at hn ht
    subst hn
    subst ht
    by_cases htxt : txt = "" <;> cases spo <;>
      simp [migrateStepNotes, htxt, isFalsyStr]
  · intro now s l hn ht
    obtain ⟨sid, st, sc, sca, sdn, sn, stl, spo, scl⟩ := s
    dsimp only at hn ht
    subst hn
    subst ht
    cases spo <;> simp [migrateStepNotes]
  · intro now s l hn hp
    obtain ⟨sid, st, sc, sca, sdn, sn, stl, spo, scl⟩ := s
    dsimp only at hn hp
    subst hn
    subst hp
    cases stl <;> simp [migrateStepNotes]

def c5LegacyStep : Step :=
  { id := 1, title := "s", completed := false, completedAt := none,
    notes := NotesField.str "hello", timeline := none, postits := none }

theorem migrateStepNotes_props_witness :
    migrateStepNotes "t1" (migrateStepNotes "t0" c5LegacyStep) =
      migrateStepNotes "t0" c5LegacyStep ∧
    (migrateStepNotes "t0" c5LegacyStep).timeline =
      some (if "hello" = "" then []
            else [{ timestamp := "t0", text := "hello",
                    type := some "timeline" }]) :=
  ⟨migrateStepNotes_props.1 "t0" "t1" c5LegacyStep,
   migrateStepNotes_props.2.1 "t0" c5LegacyStep "hello" rfl rfl⟩

/-!  Checklist completion-date rules (claim C6). -/

/-- C6: checking a checklist item stamps `completedAt = now` only when it
was previously unset (a pre-existing non-empty date is not overwritten);
unchecking always clears `completedAt`; the manual date editor sets or
clears `completedAt` regardless of — and without changing — the `checked`
flag. -/
theorem checklistDate_props :
    (∀ item now b, (checkboxChange b now item).checked = b) ∧
    (∀ item now, item.completedAt = none →
      (checkboxChange true now item).completedAt = some now) ∧
    (∀ item now d, item.completedAt = some d → d ≠ "" →
      (checkboxChange true now item).completedAt = some d) ∧
    (∀ item now, (checkboxChange false now item).completedAt = none) ∧
    (∀ item toIso v, (saveDate toIso v item).checked = item.checked) ∧
    (∀ item toIso v, v ≠ "" →
      (saveDate toIso v item).completedAt = some (toIso v)) ∧
    (∀ item toIso, (saveDate toIso "" item).completedAt = none) := by
  refine ⟨?_, ?_, ?_, ?_, ?_, ?_, ?_⟩
  · intro item now b
    unfold checkboxChange
    dsimp only
    split_ifs <;> rfl
  · intro item now h
    unfold checkboxChange
    simp [h, isFalsyStr]
  · intro item now d hd hne
    have hbeq : (d == "") = false := by
      rw [beq_eq_false_iff_ne]
      exact hne
    unfold checkboxChange
    simp [hd, isFalsyStr, hbeq]
  · intro item now
    unfold checkboxChange
    simp
  · intro item toIso v
    unfold saveDate
    split_ifs <;> rfl
  · intro item toIso v hv
    unfold saveDate
    rw [if_pos hv]
  · intro item toIso
    unfold saveDate
    rw [if_neg (fun h => h rfl)]

def c6Item : ChecklistItem :=
  { text := "t", checked := false, completedAt := none }

def c6ItemDated : ChecklistItem :=
  { text := "t", checked := false, completedAt := some "2026-01-01" }

theorem checklistDate_props_witness :
    (checkboxChange true "now0" c6Item).completedAt = some "now0" ∧
    (checkboxChange true "now0" c6ItemDated).completedAt =
      some "2026-01-01" ∧
    (saveDate id "2026-02-02" c6ItemDated).completedAt =
      some (id "2026-02-02") :=
  ⟨checklistDate_props.2.1 c6Item "now0" rfl,
   checklistDate_props.2.2.1 c6ItemDated "now0" "2026-01-01" rfl (by decide),
   checklistDate_props.2.2.2.2.2.1 c6ItemDated id "2026-02-02" (by decide)⟩

/-!  Revert semantics on the step list (claim C7). -/

/-- C7: `revertStep` on any in-range step sets that step's
`completed = false`, `completedAt = null` and `documentNumber = null`
(keeping its title and checklist), and leaves every other step of the
project unchanged. -/
theorem revertStep_fields (p : Project) (i : Nat) (h : i < p.steps.length) :
    ((revertStep p i).steps.getD i default).completed = false ∧
    ((revertStep p i).steps.getD i default).completedAt = none ∧
    ((revertStep p i).steps.getD i default).documentNumber = none ∧
    ((revertStep p i).steps.getD i default).title =
      (p.steps.getD i default).title ∧
    ((revertStep p i).steps.getD i default).checklist =
      (p.steps.getD i default).checklist ∧
    (revertStep p i).steps.length = p.steps.length ∧
    ∀ j, j ≠ i →
      (revertStep p i).steps.getD j default = p.steps.getD j default := by
  have hself := updateAt_getD_self revertStepUpdater default i p.steps h
  refine ⟨?_, ?_, ?_, ?_, ?_, ?_, ?_⟩
  · rw [revertStep_steps, hself]
    rfl
  · rw [revertStep_steps, hself]
    rfl
  · rw [revertStep_steps, hself]
    rfl
  · rw [revertStep_steps, hself]
    rfl
  · rw [revertStep_steps, hself]
    rfl
  · rw [revertStep_steps]
    exact updateAt_length _ _ _
  · intro j hj
    rw [revertStep_steps]
    exact updateAt_getD_ne revertStepUpdater default i j p.steps hj

def c7Sample : Project :=
  { status := "completed", currentStepIndex := 1,
    steps := [{ id := 1, title := "s1", completed := true,
                completedAt := some "d1", documentNumber := some "doc1" },
              { id := 2, title := "s2", completed := true,
                completedAt := some "d2", documentNumber := some "doc2" }] }

theorem revertStep_fields_witness :
    ((revertStep c7Sample 1).steps.getD 1 default).completed = false ∧
    ((revertStep c7Sample 1).steps.getD 1 default).documentNumber = none ∧
    (revertStep c7Sample 1).steps.getD 0 default =
      c7Sample.steps.getD 0 default :=
  ⟨(revertStep_fields c7Sample 1 (by decide)).1,
   (revertStep_fields c7Sample 1 (by decide)).2.2.1,
   (revertStep_fields c7Sample 1 (by decide)).2.2.2.2.2.2 0 (by decide)⟩

/-!  Project creation and the empty-template hazard (claim C8). -/

theorem initSteps_length :
    ∀ (tmpl : List TemplateEntry) (idx : Nat),
      (initSteps tmpl idx).length = tmpl.length := by
  intro tmpl
  induction tmpl with
  | nil => intro idx; rfl
  | cons t rest ih => intro idx; simp [initSteps, ih]

/-- C8 counterexample: nothing rejects or clamps an empty step template at
project-creation time — the `Project` constructor maps the template
directly, so a project created from an empty template has zero steps, and
its `progressPercent` is the JS `NaN` (modelled `none`). -/
theorem emptyTemplate_project_has_zero_steps :
    totalStepCount (mkProject "n" "" 0 none "normal" "buy" [] "e-bidding" 0
      "id0" "t0") = 0 ∧
    progressPercent (mkProject "n" "" 0 none "normal" "buy" [] "e-bidding" 0
      "id0" "t0") = none := by
  constructor
  · rfl
  · rfl

/-- C8 (amended): project creation performs no rejection or clamping of the
step template: the created project's step count always equals the template's
length.  `totalStepCount ≥ 1` (and a non-`NaN` `progressPercent`) therefore
holds exactly for non-empty templates — in particular for the 7-step default
template — while an emptied custom template produces a 0-step project whose
`progressPercent` is `NaN`. -/
theorem mkProject_no_clamp (name desc : String) (budget : ℚ)
    (dl : Option String) (pr pt : String) (tmpl : List TemplateEntry)
    (m : String) (ca : ℚ) (idN cN : String) :
    totalStepCount (mkProject name desc budget dl pr pt tmpl m ca idN cN) =
      tmpl.length ∧
    (tmpl ≠ [] →
      1 ≤ totalStepCount (mkProject name desc budget dl pr pt tmpl m ca idN cN) ∧
      progressPercent (mkProject name desc budget dl pr pt tmpl m ca idN cN) ≠
        none) ∧
    totalStepCount
      (mkProject name desc budget dl pr pt STEPS_TEMPLATE m ca idN cN) = 7 := by
  have h1 : totalStepCount (mkProject name desc budget dl pr pt tmpl m ca idN cN) =
      tmpl.length := initSteps_length tmpl 0
  refine ⟨h1, ?_, ?_⟩
  · intro hne
    have hpos : 0 < tmpl.length := List.length_pos.mpr hne
    constructor
    · omega
    · have hne0 : ¬ (mkProject name desc budget dl pr pt tmpl m ca idN cN).steps.length = 0 := by
        have := h1
        unfold totalStepCount at this
        omega
      unfold progressPercent
      rw [if_neg hne0]
      simp
  · have : totalStepCount (mkProject name desc budget dl pr pt STEPS_TEMPLATE m ca idN cN) =
        STEPS_TEMPLATE.length := initSteps_length STEPS_TEMPLATE 0
    rw [this]
    rfl

def c8Tmpl : List TemplateEntry := [{ id := 1, title := "only-step" }]

theorem mkProject_no_clamp_witness :
    1 ≤ totalStepCount
        (mkProject "n" "" 0 none "normal" "buy" c8Tmpl "e-bidding" 0
          "id0" "t0") ∧
    progressPercent
        (mkProject "n" "" 0 none "normal" "buy" c8Tmpl "e-bidding" 0
          "id0" "t0") ≠ none :=
  (mkProject_no_clamp "n" "" 0 none "normal" "buy" c8Tmpl "e-bidding" 0
    "id0" "t0").2.1 (by decide)

/-!  Store adapter semantics (claims C9 and C10). -/

/-- C9: `getWorkspaceData` returns `null` both when no workspace document
exists and when the underlying read fails — the two outcomes are equal as
return values, so a caller cannot distinguish an empty workspace from a
failed read; only a successful read of an existing document yields data. -/
theorem getWorkspaceData_conflates (code : String) (msg : String)
    (w : Workspace) :
    getWorkspaceData (some code) ReadResult.notFound = none ∧
    getWorkspaceData (some code) (ReadResult.error msg) = none ∧
    getWorkspaceData (some code) (ReadResult.error msg) =
      getWorkspaceData (some code) ReadResult.notFound ∧
    getWorkspaceData (some code) (ReadResult.found w) = some w :=
  ⟨rfl, rfl, rfl, rfl⟩

/-- C10: with an access code set, `saveWorkspace` never propagates a
transport failure: a rejected write is caught (alerted to the user) and the
function returns normally, so `handleMigration` deletes the local legacy
data exactly as it does after a successful write. -/
theorem saveWorkspace_swallows_write_errors (code : String) (msg : String)
    (legacy : List Project) :
    saveWorkspace (some code) (WriteResult.err msg) =
      SaveOutcome.returned true ∧
    handleMigration code legacy (WriteResult.err msg) = true ∧
    handleMigration code legacy (WriteResult.err msg) =
      handleMigration code legacy WriteResult.ok :=
  ⟨rfl, rfl, rfl⟩

end ProTracker
